import Mathlib

/-!
Shallow embedding of the projection engine of `src/app.py`
(`calculate_investment_detailed`, lines 179-260) together with the
derived ROI metric (line 305).  Monetary arithmetic is modelled over ℚ
(exact rational arithmetic); Python's `round(x, 2)` — round half to
even — is modelled by `round2` below, whose half-to-even behaviour is
proved in `roundHalfEven_spec`.
-/

/-- Round half to even to the nearest integer (the rounding mode of
Python's builtin `round`), written as a closed floor formula so it
evaluates well; `roundHalfEven_spec` proves the usual description. -/
def roundHalfEven (x : ℚ) : ℤ := ⌊x / 2 + 1 / 4⌋ - ⌊1 / 4 - x / 2⌋

/-- Python's `round(x, 2)` as used in `src/app.py`: round to two
decimal places, half to even. -/
def round2 (x : ℚ) : ℚ := (roundHalfEven (100 * x) : ℚ) / 100

/-- Python's `calendar.month_name[i]` lookup, for the
month indices 1..12 produced by the engine (index 0 is the empty
string). -/
def pyMonthName : ℤ → String
  | 1 => "January"
  | 2 => "February"
  | 3 => "March"
  | 4 => "April"
  | 5 => "May"
  | 6 => "June"
  | 7 => "July"
  | 8 => "August"
  | 9 => "September"
  | 10 => "October"
  | 11 => "November"
  | 12 => "December"
  | _ => ""

/-- The parameter tuple passed to `calculate_investment_detailed`
(src/app.py lines 179-189). -/
structure Params where
  initial_investment : ℚ
  monthly_contribution : ℚ
  years : ℕ
  annual_return : ℚ
  annual_increase_rate : ℚ
  annual_inflation_rate : ℚ
  lump_sums : List (ℤ × ℚ)
  start_month : ℤ
  start_year : ℤ
deriving DecidableEq

/-- The mutable accumulator of the engine loop
(src/app.py lines 194-196). -/
structure EngineState where
  total_contributions : ℚ
  total_value : ℚ
  monthly_contrib : ℚ
deriving DecidableEq

/-- One element of `results_monthly` (src/app.py lines 225-235). -/
structure MonthlyRow where
  year : ℕ
  month : ℕ
  calendar_month : ℤ
  calendar_year : ℤ
  month_name : String
  monthly_contribution : ℚ
  total_contributions : ℚ
  investment_gain : ℚ
  total_value : ℚ
deriving DecidableEq

/-- One element of `results_yearly` (src/app.py lines 251-258). -/
structure YearlyRow where
  year : ℕ
  total_contributions : ℚ
  investment_gain : ℚ
  total_value : ℚ
deriving DecidableEq

/-- src/app.py lines 194-196: the accumulator before the first year. -/
def initState (p : Params) : EngineState :=
  ⟨p.initial_investment, p.initial_investment, p.monthly_contribution⟩

/-- src/app.py lines 199-204: the inflation-adjusted annual rate
(computed by the source but never used by the loop). -/
def real_annual_return (p : Params) : ℚ :=
  if p.annual_inflation_rate ≠ 0 then
    (1 + p.annual_return) / (1 + p.annual_inflation_rate) - 1
  else p.annual_return

/-- src/app.py line 205: the inflation-adjusted monthly rate
(computed by the source but never used by the loop). -/
def real_monthly_rate (p : Params) : ℚ := real_annual_return p / 12

/-- src/app.py lines 216-217: one month's update, in the source's
order: growth is applied to the stored value before the month's
contribution is added, then the contribution is accumulated. -/
def monthStep (p : Params) (s : EngineState) : EngineState :=
  ⟨s.total_contributions + s.monthly_contrib,
   s.total_value * (1 + p.annual_return / 12) + s.monthly_contrib,
   s.monthly_contrib⟩

/-- src/app.py lines 220-235: the monthly snapshot emitted after the
month's update (`s` is the post-update state).  The calendar labels
follow lines 220-221 with `current_month = start_month` and
`current_year = start_year + (y - 1)`; Python's `//` and `%` on a
positive modulus agree with `Int.ediv` and `Int.emod`. -/
def monthRow (p : Params) (y m : ℕ) (s : EngineState) : MonthlyRow :=
  ⟨y, m,
   Int.emod (p.start_month + (m : ℤ) - 2) 12 + 1,
   p.start_year + ((y : ℤ) - 1) + Int.ediv (p.start_month + (m : ℤ) - 2) 12,
   pyMonthName (Int.emod (p.start_month + (m : ℤ) - 2) 12 + 1),
   round2 s.monthly_contrib,
   round2 s.total_contributions,
   round2 (s.total_value - s.total_contributions),
   round2 s.total_value⟩

/-- src/app.py lines 214-235: the inner `for month in range(1, 13)`
loop, run over an explicit list of month indices. -/
def runMonthList (p : Params) (y : ℕ) :
    List ℕ → EngineState → List MonthlyRow × EngineState
  | [], s => ([], s)
  | m :: ms, s =>
    let s1 := monthStep p s
    let rest := runMonthList p y ms s1
    (monthRow p y m s1 :: rest.1, rest.2)

/-- src/app.py line 238: the lump-sum amounts registered for year `y`. -/
def lumpsOfYear (p : Params) (y : ℕ) : List ℚ :=
  (p.lump_sums.filter (fun l => decide (l.1 = (y : ℤ)))).map Prod.snd

/-- src/app.py lines 239-241: add each of this year's lump sums to the
stored value and the stored contributions. -/
def applyLumps (ls : List ℚ) (s : EngineState) : EngineState :=
  ls.foldl
    (fun st a => ⟨st.total_contributions + a, st.total_value + a, st.monthly_contrib⟩) s

/-- src/app.py line 244: grow the contribution base for the next year. -/
def growContrib (p : Params) (s : EngineState) : EngineState :=
  ⟨s.total_contributions, s.total_value,
   s.monthly_contrib * (1 + p.annual_increase_rate)⟩

/-- src/app.py lines 250-258: the year-end snapshot emitted after the
lump sums and the contribution growth. -/
def yearlyRowOf (y : ℕ) (s : EngineState) : YearlyRow :=
  ⟨y, round2 s.total_contributions,
   round2 (s.total_value - s.total_contributions),
   round2 s.total_value⟩

/-- src/app.py lines 210-258: the body of the outer `for year` loop for
one year: 12 monthly steps, then lump sums, then contribution growth,
then the yearly snapshot. -/
def yearStep (p : Params) (y : ℕ) (s : EngineState) :
    List MonthlyRow × YearlyRow × EngineState :=
  let ms := runMonthList p y (List.range' 1 12) s
  let s2 := applyLumps (lumpsOfYear p y) ms.2
  let s3 := growContrib p s2
  (ms.1, yearlyRowOf y s3, s3)

/-- src/app.py lines 210-258: the outer `for year in range(1, years+1)`
loop, run over an explicit list of year indices. -/
def runYears (p : Params) :
    List ℕ → EngineState → List YearlyRow × List MonthlyRow
  | [], _ => ([], [])
  | y :: ys, s =>
    let st := yearStep p y s
    let rest := runYears p ys st.2.2
    (st.2.1 :: rest.1, st.1 ++ rest.2)

/-- src/app.py lines 179-260: `calculate_investment_detailed`, returning
the yearly table and the monthly table. -/
def calculate_investment_detailed (p : Params) :
    List YearlyRow × List MonthlyRow :=
  runYears p (List.range' 1 p.years) (initState p)

/-- The contribution base in effect during year `y` (`monthly_contrib`
after `y - 1` annual increases). -/
def contribBase (p : Params) (y : ℕ) : ℚ :=
  p.monthly_contribution * (1 + p.annual_increase_rate) ^ (y - 1)

/-- The accumulator after `k` complete years of the loop. -/
def stateAfterYears (p : Params) : ℕ → EngineState
  | 0 => initState p
  | k + 1 => (yearStep p (k + 1) (stateAfterYears p k)).2.2

/-- The accumulator after the first `i` months of year `y`. -/
def stateInYear (p : Params) (y i : ℕ) : EngineState :=
  (monthStep p)^[i] (stateAfterYears p (y - 1))

/-- The monthly row emitted for month `m` of year `y`. -/
def monthlyRowAt (p : Params) (y m : ℕ) : MonthlyRow :=
  monthRow p y m (stateInYear p y m)

/-- The yearly row emitted for year `y`. -/
def yearlyRowAt (p : Params) (y : ℕ) : YearlyRow :=
  yearlyRowOf y (stateAfterYears p y)

/-- Sum of the lump-sum amounts whose registered year lies in `[1, k]`. -/
def lumpSumsThrough (p : Params) (k : ℕ) : ℚ :=
  ((p.lump_sums.filter (fun l => decide (1 ≤ l.1 ∧ l.1 ≤ (k : ℤ)))).map Prod.snd).sum

/-- All money paid in through the end of year `k`: the initial
investment, the 12 monthly contributions of each year at that year's
contribution base, and the lump sums applied in years `1..k`. -/
def paidThrough (p : Params) (k : ℕ) : ℚ :=
  p.initial_investment + (∑ j ∈ Finset.range k, 12 * contribBase p (j + 1)) +
    lumpSumsThrough p k

/-- A monthly row with its calendar label fields blanked out. -/
def stripAnchor (r : MonthlyRow) : MonthlyRow :=
  { r with calendar_month := 0, calendar_year := 0, month_name := "" }

/-- Componentwise order on the accumulator (contributions and value). -/
def stateLe (s t : EngineState) : Prop :=
  s.total_contributions ≤ t.total_contributions ∧ s.total_value ≤ t.total_value

/-- The IEEE-754 double values the derived-metric computations of
src/app.py can produce, restricted to exact rationals plus the special
values produced by division by zero. -/
inductive PFloat where
  | fin (q : ℚ)
  | posInf
  | negInf
  | nan
deriving DecidableEq

/-- src/app.py line 305: one entry of the `ROI (%)` column,
`Investment Gain / Total Contributions * 100`, with the pandas/numpy
zero-denominator behaviour made explicit: `0/0` is NaN and `x/0` is
±infinity (produced silently — no exception is raised and no
"undefined" marker exists in the code).  Multiplication by 100
preserves NaN and ±infinity. -/
def roiPercentCell (r : YearlyRow) : PFloat :=
  if r.total_contributions = 0 then
    if r.investment_gain = 0 then PFloat.nan
    else if 0 < r.investment_gain then PFloat.posInf
    else PFloat.negInf
  else PFloat.fin (r.investment_gain / r.total_contributions * 100)

/-- src/app.py line 305: the whole `ROI (%)` column of the yearly table. -/
def roiColumn (p : Params) : List PFloat :=
  (calculate_investment_detailed p).1.map roiPercentCell

theorem runMonthList_eq (p : Params) (y : ℕ) (s : EngineState) :
    ∀ (n j : ℕ),
      runMonthList p y (List.range' (j + 1) n) ((monthStep p)^[j] s) =
        ((List.range' (j + 1) n).map (fun m => monthRow p y m ((monthStep p)^[m] s)),
         (monthStep p)^[n + j] s) := by
  intro n
  induction n with
  | zero => intro j; simp [runMonthList]
  | succ n ih =>
    intro j
    rw [List.range'_succ]
    show (monthRow p y (j + 1) (monthStep p ((monthStep p)^[j] s)) ::
        (runMonthList p y (List.range' (j + 1 + 1) n) (monthStep p ((monthStep p)^[j] s))).1,
      (runMonthList p y (List.range' (j + 1 + 1) n) (monthStep p ((monthStep p)^[j] s))).2) = _
    rw [← Function.iterate_succ_apply' (monthStep p) j s, ih (j + 1),
      show n + (j + 1) = n + 1 + j from by omega]
    simp [List.range'_succ]

theorem yearStep_eq (p : Params) (k : ℕ) :
    yearStep p (k + 1) (stateAfterYears p k) =
      ((List.range' 1 12).map (monthlyRowAt p (k + 1)),
       yearlyRowAt p (k + 1), stateAfterYears p (k + 1)) := by
  have h := runMonthList_eq p (k + 1) (stateAfterYears p k) 12 0
  norm_num at h
  show ((runMonthList p (k + 1) (List.range' 1 12) (stateAfterYears p k)).1,
    yearlyRowOf (k + 1) (stateAfterYears p (k + 1)), stateAfterYears p (k + 1)) = _
  rw [h]
  rfl

theorem runYears_eq (p : Params) :
    ∀ (n k : ℕ),
      runYears p (List.range' (k + 1) n) (stateAfterYears p k) =
        ((List.range' (k + 1) n).map (yearlyRowAt p),
         (List.range' (k + 1) n).flatMap
           (fun y => (List.range' 1 12).map (monthlyRowAt p y))) := by
  intro n
  induction n with
  | zero => intro k; simp [runYears]
  | succ n ih =>
    intro k
    rw [List.range'_succ]
    show ((yearStep p (k + 1) (stateAfterYears p k)).2.1 ::
        (runYears p (List.range' (k + 1 + 1) n)
          (yearStep p (k + 1) (stateAfterYears p k)).2.2).1,
      (yearStep p (k + 1) (stateAfterYears p k)).1 ++
        (runYears p (List.range' (k + 1 + 1) n)
          (yearStep p (k + 1) (stateAfterYears p k)).2.2).2) = _
    rw [yearStep_eq p k]
    simp only [ih (k + 1), List.map_cons, List.flatMap_cons]

theorem calc_eq (p : Params) :
    calculate_investment_detailed p =
      ((List.range' 1 p.years).map (yearlyRowAt p),
       (List.range' 1 p.years).flatMap
         (fun y => (List.range' 1 12).map (monthlyRowAt p y))) := by
  have h := runYears_eq p p.years 0
  simpa [calculate_investment_detailed, stateAfterYears] using h


theorem applyLumps_eq (ls : List ℚ) :
    ∀ s : EngineState,
      applyLumps ls s =
        ⟨s.total_contributions + ls.sum, s.total_value + ls.sum, s.monthly_contrib⟩ := by
  induction ls with
  | nil => intro s; simp [applyLumps]
  | cons a tl ih =>
    intro s
    show applyLumps tl ⟨s.total_contributions + a, s.total_value + a, s.monthly_contrib⟩ = _
    rw [ih]
    simp [List.sum_cons]
    constructor
    · ring
    · ring

theorem mc_iterate (p : Params) (s : EngineState) :
    ∀ i : ℕ, ((monthStep p)^[i] s).monthly_contrib = s.monthly_contrib := by
  intro i
  induction i with
  | zero => rfl
  | succ i ih => rw [Function.iterate_succ_apply']; exact ih

theorem tc_iterate (p : Params) (s : EngineState) :
    ∀ i : ℕ,
      ((monthStep p)^[i] s).total_contributions =
        s.total_contributions + i * s.monthly_contrib := by
  intro i
  induction i with
  | zero => simp
  | succ i ih =>
    rw [Function.iterate_succ_apply']
    show ((monthStep p)^[i] s).total_contributions + ((monthStep p)^[i] s).monthly_contrib = _
    rw [ih, mc_iterate]
    push_cast
    ring

theorem stateAfterYears_succ (p : Params) (k : ℕ) :
    stateAfterYears p (k + 1) =
      growContrib p (applyLumps (lumpsOfYear p (k + 1))
        ((monthStep p)^[12] (stateAfterYears p k))) := by
  have h2 := runMonthList_eq p (k + 1) (stateAfterYears p k) 12 0
  norm_num at h2
  show growContrib p (applyLumps (lumpsOfYear p (k + 1))
    ((runMonthList p (k + 1) (List.range' 1 12) (stateAfterYears p k)).2)) = _
  rw [h2]
  rfl

theorem mc_stateAfterYears (p : Params) :
    ∀ k : ℕ, (stateAfterYears p k).monthly_contrib =
      p.monthly_contribution * (1 + p.annual_increase_rate) ^ k := by
  intro k
  induction k with
  | zero => simp [stateAfterYears, initState]
  | succ k ih =>
    rw [stateAfterYears_succ, growContrib, applyLumps_eq]
    show ((monthStep p)^[12] (stateAfterYears p k)).monthly_contrib * _ = _
    rw [mc_iterate, ih]
    ring

theorem sumFilter_split (k : ℕ) :
    ∀ L : List (ℤ × ℚ),
      ((L.filter (fun l => decide (1 ≤ l.1 ∧ l.1 ≤ ((k : ℤ) + 1)))).map Prod.snd).sum =
        ((L.filter (fun l => decide (1 ≤ l.1 ∧ l.1 ≤ (k : ℤ)))).map Prod.snd).sum +
          ((L.filter (fun l => decide (l.1 = (k : ℤ) + 1))).map Prod.snd).sum := by
  intro L
  induction L with
  | nil => simp
  | cons hd tl ih =>
    rcases hd with ⟨a, q⟩
    by_cases h1 : 1 ≤ a ∧ a ≤ (k : ℤ) + 1
    · by_cases h2 : 1 ≤ a ∧ a ≤ (k : ℤ)
      · have h3 : ¬a = (k : ℤ) + 1 := by omega
        rw [List.filter_cons_of_pos (by simpa using h1),
          List.filter_cons_of_pos (by simpa using h2),
          List.filter_cons_of_neg (by simpa using h3)]
        simp only [List.map_cons, List.sum_cons, ih]
        ring
      · have h3 : a = (k : ℤ) + 1 := by omega
        rw [List.filter_cons_of_pos (by simpa using h1),
          List.filter_cons_of_neg (by simpa using h2),
          List.filter_cons_of_pos (by simpa using h3)]
        simp only [List.map_cons, List.sum_cons, ih]
        ring
    · have h2 : ¬(1 ≤ a ∧ a ≤ (k : ℤ)) := by omega
      have h3 : ¬a = (k : ℤ) + 1 := by omega
      rw [List.filter_cons_of_neg (by simpa using h1),
        List.filter_cons_of_neg (by simpa using h2),
        List.filter_cons_of_neg (by simpa using h3)]
      exact ih

theorem lumpSumsThrough_succ (p : Params) (k : ℕ) :
    lumpSumsThrough p (k + 1) = lumpSumsThrough p k + (lumpsOfYear p (k + 1)).sum := by
  have h := sumFilter_split k p.lump_sums
  unfold lumpSumsThrough lumpsOfYear
  push_cast
  convert h using 4

theorem lumpSumsThrough_zero (p : Params) : lumpSumsThrough p 0 = 0 := by
  unfold lumpSumsThrough
  rw [List.filter_eq_nil_iff.mpr]
  · simp
  · intro l _
    simp only [decide_eq_true_eq, Nat.cast_zero]
    omega

theorem tc_stateAfterYears (p : Params) :
    ∀ k : ℕ, (stateAfterYears p k).total_contributions = paidThrough p k := by
  intro k
  induction k with
  | zero =>
    show p.initial_investment = paidThrough p 0
    simp [paidThrough, lumpSumsThrough_zero]
  | succ k ih =>
    rw [stateAfterYears_succ]
    simp only [growContrib, applyLumps_eq]
    show ((monthStep p)^[12] (stateAfterYears p k)).total_contributions +
      (lumpsOfYear p (k + 1)).sum = _
    rw [tc_iterate, ih, mc_stateAfterYears]
    simp only [paidThrough, Finset.sum_range_succ, lumpSumsThrough_succ,
      contribBase, Nat.add_sub_cancel]
    push_cast
    ring

/-- `roundHalfEven` is the usual round-half-to-even: values with
fractional part below one half round down, above one half round up, and
exact halves round to the even neighbour. -/
theorem roundHalfEven_spec (x : ℚ) :
    roundHalfEven x =
      if x - ⌊x⌋ < 1 / 2 then ⌊x⌋
      else if 1 / 2 < x - ⌊x⌋ then ⌊x⌋ + 1
      else if ⌊x⌋ % 2 = 0 then ⌊x⌋ else ⌊x⌋ + 1 := by
  have hfl : (⌊x⌋ : ℚ) ≤ x := Int.floor_le x
  have hfu : x < ⌊x⌋ + 1 := Int.lt_floor_add_one x
  unfold roundHalfEven
  rcases Int.even_or_odd ⌊x⌋ with ⟨c, hc⟩ | ⟨c, hc⟩
  · have hcq : (⌊x⌋ : ℚ) = 2 * c := by rw [hc]; push_cast; ring
    rw [hcq] at hfl hfu
    have h1 : ⌊x / 2 + 1 / 4⌋ = c := by
      rw [Int.floor_eq_iff]
      constructor <;> linarith
    by_cases ht : x - ⌊x⌋ ≤ 1 / 2
    · rw [hcq] at ht
      have h2 : ⌊1 / 4 - x / 2⌋ = -c := by
        rw [Int.floor_eq_iff]
        push_cast
        constructor <;> linarith
      rw [h1, h2]
      by_cases ht' : x - ⌊x⌋ < 1 / 2
      · rw [if_pos ht', hc]
        ring
      · rw [if_neg ht', if_neg (by rw [hcq]; linarith),
          if_pos (by omega), hc]
        ring
    · rw [hcq] at ht
      have h2 : ⌊1 / 4 - x / 2⌋ = -c - 1 := by
        rw [Int.floor_eq_iff]
        push_cast
        constructor <;> linarith
      rw [h1, h2]
      rw [if_neg (by rw [hcq]; linarith), if_pos (by rw [hcq]; linarith), hc]
      ring
  · have hcq : (⌊x⌋ : ℚ) = 2 * c + 1 := by rw [hc]; push_cast; ring
    rw [hcq] at hfl hfu
    have h2 : ⌊1 / 4 - x / 2⌋ = -c - 1 := by
      rw [Int.floor_eq_iff]
      push_cast
      constructor <;> linarith
    by_cases ht : x - ⌊x⌋ < 1 / 2
    · rw [hcq] at ht
      have h1 : ⌊x / 2 + 1 / 4⌋ = c := by
        rw [Int.floor_eq_iff]
        constructor <;> linarith
      rw [h1, h2, if_pos (by rw [hcq]; linarith), hc]
      ring
    · rw [hcq] at ht
      have h1 : ⌊x / 2 + 1 / 4⌋ = c + 1 := by
        rw [Int.floor_eq_iff]
        push_cast
        constructor <;> linarith
      rw [h1, h2, if_neg (by rw [hcq]; linarith)]
      by_cases ht' : 1 / 2 < x - ⌊x⌋
      · rw [if_pos ht', hc]
        ring
      · rw [if_neg ht', if_neg (by omega), hc]
        ring

theorem roundHalfEven_mono {x y : ℚ} (h : x ≤ y) :
    roundHalfEven x ≤ roundHalfEven y := by
  unfold roundHalfEven
  have h1 : ⌊x / 2 + 1 / 4⌋ ≤ ⌊y / 2 + 1 / 4⌋ := Int.floor_mono (by linarith)
  have h2 : ⌊1 / 4 - y / 2⌋ ≤ ⌊1 / 4 - x / 2⌋ := Int.floor_mono (by linarith)
  omega

theorem round2_mono {x y : ℚ} (h : x ≤ y) : round2 x ≤ round2 y := by
  unfold round2
  have h1 := roundHalfEven_mono (show 100 * x ≤ 100 * y by linarith)
  have h2 : ((roundHalfEven (100 * x) : ℤ) : ℚ) ≤ (roundHalfEven (100 * y) : ℤ) := by
    exact_mod_cast h1
  linarith

theorem monthlyRowAt_tc (p : Params) (y m : ℕ) :
    (monthlyRowAt p y m).total_contributions =
      round2 (paidThrough p (y - 1) + m * contribBase p y) := by
  show round2 ((stateInYear p y m).total_contributions) = _
  unfold stateInYear
  rw [tc_iterate, tc_stateAfterYears, mc_stateAfterYears]
  unfold contribBase
  rfl

theorem monthlyRowAt_contrib (p : Params) (y m : ℕ) :
    (monthlyRowAt p y m).monthly_contribution = round2 (contribBase p y) := by
  show round2 ((stateInYear p y m).monthly_contrib) = _
  unfold stateInYear
  rw [mc_iterate, mc_stateAfterYears]
  rfl

theorem yearlyRowAt_tc (p : Params) (y : ℕ) :
    (yearlyRowAt p y).total_contributions = round2 (paidThrough p y) := by
  show round2 ((stateAfterYears p y).total_contributions) = _
  rw [tc_stateAfterYears]


theorem stateAfterYears_inflation (p : Params) (r : ℚ) :
    ∀ k : ℕ,
      stateAfterYears { p with annual_inflation_rate := r } k = stateAfterYears p k := by
  intro k
  induction k with
  | zero => rfl
  | succ k ih =>
    rw [stateAfterYears_succ, stateAfterYears_succ, ih]
    rfl

theorem stateAfterYears_anchor (p : Params) (sm sy : ℤ) :
    ∀ k : ℕ,
      stateAfterYears { p with start_month := sm, start_year := sy } k =
        stateAfterYears p k := by
  intro k
  induction k with
  | zero => rfl
  | succ k ih =>
    rw [stateAfterYears_succ, stateAfterYears_succ, ih]
    rfl

theorem monthly_len (p : Params) :
    ∀ L : List ℕ,
      (L.flatMap (fun y => (List.range' 1 12).map (monthlyRowAt p y))).length =
        L.length * 12 := by
  intro L
  induction L with
  | nil => simp
  | cons a tl ih =>
    simp only [List.flatMap_cons, List.length_append, List.length_map,
      List.length_range', ih, List.length_cons]
    ring


theorem stateLe_trans {a b c : EngineState} (h1 : stateLe a b) (h2 : stateLe b c) :
    stateLe a c :=
  ⟨le_trans h1.1 h2.1, le_trans h1.2 h2.2⟩

theorem chain_map_range {α : Type} (R : α → α → Prop) (f : ℕ → α)
    (h : ∀ i, R (f i) (f (i + 1))) :
    ∀ n a : ℕ, List.Chain' R ((List.range' a n).map f) := by
  intro n
  induction n with
  | zero => intro a; simp
  | succ n ih =>
    intro a
    rw [List.range'_succ, List.map_cons, List.chain'_cons']
    refine ⟨?_, ih (a + 1)⟩
    intro z hz
    cases n with
    | zero => simp at hz
    | succ n =>
      rw [List.range'_succ, List.map_cons] at hz
      simp only [List.head?_cons, Option.mem_def, Option.some.injEq] at hz
      rw [← hz]
      exact h a

theorem chain_flatMap {α : Type} (R : α → α → Prop) (f : ℕ → List α)
    (hne : ∀ i, f i ≠ []) (hchain : ∀ i, List.Chain' R (f i)) :
    ∀ n a : ℕ,
      (∀ i, a ≤ i → ∀ x ∈ (f i).getLast?, ∀ z ∈ (f (i + 1)).head?, R x z) →
      List.Chain' R ((List.range' a n).flatMap f) := by
  intro n
  induction n with
  | zero => intro a _; simp
  | succ n ih =>
    intro a hlink
    rw [List.range'_succ, List.flatMap_cons, List.chain'_append]
    refine ⟨hchain a, ih (a + 1) (fun i hi => hlink i (by omega)), ?_⟩
    intro x hx z hz
    cases n with
    | zero => simp at hz
    | succ n =>
      rw [List.range'_succ, List.flatMap_cons, List.head?_append] at hz
      cases hh : (f (a + 1)).head? with
      | none => exact absurd (List.head?_eq_none_iff.mp hh) (hne (a + 1))
      | some w =>
        rw [hh] at hz
        simp only [Option.or, Option.mem_def, Option.some.injEq] at hz
        exact hlink a (Nat.le_refl a) x hx z (by rw [hh, hz]; rfl)

theorem lumpsOfYear_sum_nonneg (p : Params) (hl : ∀ l ∈ p.lump_sums, 0 ≤ l.2) (y : ℕ) :
    0 ≤ (lumpsOfYear p y).sum := by
  apply List.sum_nonneg
  intro a ha
  unfold lumpsOfYear at ha
  rcases List.mem_map.mp ha with ⟨l, hlm, rfl⟩
  exact hl l (List.mem_filter.mp hlm).1

theorem mc_state_nonneg (p : Params) (hmc : 0 ≤ p.monthly_contribution)
    (hg : -1 ≤ p.annual_increase_rate) (k : ℕ) :
    0 ≤ (stateAfterYears p k).monthly_contrib := by
  rw [mc_stateAfterYears]
  exact mul_nonneg hmc (pow_nonneg (by linarith) k)

theorem tv_iterate_nonneg (p : Params) (hr : 0 ≤ p.annual_return) (s : EngineState)
    (h0 : 0 ≤ s.total_value) (hmc : 0 ≤ s.monthly_contrib) :
    ∀ i, 0 ≤ ((monthStep p)^[i] s).total_value := by
  intro i
  induction i with
  | zero => simpa using h0
  | succ i ih =>
    rw [Function.iterate_succ_apply']
    show 0 ≤ ((monthStep p)^[i] s).total_value * (1 + p.annual_return / 12) +
      ((monthStep p)^[i] s).monthly_contrib
    rw [mc_iterate]
    have h1 : (0 : ℚ) ≤ 1 + p.annual_return / 12 := by linarith
    have h2 := mul_nonneg ih h1
    linarith

theorem tv_state_nonneg (p : Params) (hr : 0 ≤ p.annual_return)
    (hii : 0 ≤ p.initial_investment) (hmc : 0 ≤ p.monthly_contribution)
    (hg : -1 ≤ p.annual_increase_rate) (hl : ∀ l ∈ p.lump_sums, 0 ≤ l.2) :
    ∀ k, 0 ≤ (stateAfterYears p k).total_value := by
  intro k
  induction k with
  | zero => simpa [stateAfterYears, initState] using hii
  | succ k ih =>
    rw [stateAfterYears_succ]
    show 0 ≤ (applyLumps (lumpsOfYear p (k + 1))
      ((monthStep p)^[12] (stateAfterYears p k))).total_value
    rw [applyLumps_eq]
    show 0 ≤ ((monthStep p)^[12] (stateAfterYears p k)).total_value +
      (lumpsOfYear p (k + 1)).sum
    have h1 := tv_iterate_nonneg p hr _ ih (mc_state_nonneg p hmc hg k) 12
    have h2 := lumpsOfYear_sum_nonneg p hl (k + 1)
    linarith

theorem stateLe_monthStep (p : Params) (hr : 0 ≤ p.annual_return) (s : EngineState)
    (h0 : 0 ≤ s.total_value) (hmc : 0 ≤ s.monthly_contrib) :
    stateLe s (monthStep p s) := by
  constructor
  · show s.total_contributions ≤ s.total_contributions + s.monthly_contrib
    linarith
  · show s.total_value ≤ s.total_value * (1 + p.annual_return / 12) + s.monthly_contrib
    have h1 : (0 : ℚ) ≤ s.total_value * (p.annual_return / 12) :=
      mul_nonneg h0 (by linarith)
    nlinarith

theorem stateLe_iterate_succ (p : Params) (hr : 0 ≤ p.annual_return) (s : EngineState)
    (h0 : 0 ≤ s.total_value) (hmc : 0 ≤ s.monthly_contrib) (i : ℕ) :
    stateLe ((monthStep p)^[i] s) ((monthStep p)^[i + 1] s) := by
  rw [Function.iterate_succ_apply']
  exact stateLe_monthStep p hr _ (tv_iterate_nonneg p hr s h0 hmc i)
    (by rw [mc_iterate]; exact hmc)

theorem stateLe_iterate (p : Params) (hr : 0 ≤ p.annual_return) (s : EngineState)
    (h0 : 0 ≤ s.total_value) (hmc : 0 ≤ s.monthly_contrib) :
    ∀ i, stateLe s ((monthStep p)^[i] s) := by
  intro i
  induction i with
  | zero => exact ⟨le_refl _, le_refl _⟩
  | succ i ih => exact stateLe_trans ih (stateLe_iterate_succ p hr s h0 hmc i)

theorem stateLe_monthsEnd_yearEnd (p : Params) (hl : ∀ l ∈ p.lump_sums, 0 ≤ l.2)
    (k : ℕ) :
    stateLe ((monthStep p)^[12] (stateAfterYears p k)) (stateAfterYears p (k + 1)) := by
  rw [stateAfterYears_succ]
  have hs := lumpsOfYear_sum_nonneg p hl (k + 1)
  constructor
  · show ((monthStep p)^[12] (stateAfterYears p k)).total_contributions ≤
      (applyLumps (lumpsOfYear p (k + 1))
        ((monthStep p)^[12] (stateAfterYears p k))).total_contributions
    rw [applyLumps_eq]
    show _ ≤ ((monthStep p)^[12] (stateAfterYears p k)).total_contributions +
      (lumpsOfYear p (k + 1)).sum
    linarith
  · show ((monthStep p)^[12] (stateAfterYears p k)).total_value ≤
      (applyLumps (lumpsOfYear p (k + 1))
        ((monthStep p)^[12] (stateAfterYears p k))).total_value
    rw [applyLumps_eq]
    show _ ≤ ((monthStep p)^[12] (stateAfterYears p k)).total_value +
      (lumpsOfYear p (k + 1)).sum
    linarith

theorem stateLe_years (p : Params) (hr : 0 ≤ p.annual_return)
    (hii : 0 ≤ p.initial_investment) (hmc : 0 ≤ p.monthly_contribution)
    (hg : -1 ≤ p.annual_increase_rate) (hl : ∀ l ∈ p.lump_sums, 0 ≤ l.2) (k : ℕ) :
    stateLe (stateAfterYears p k) (stateAfterYears p (k + 1)) :=
  stateLe_trans
    (stateLe_iterate p hr _ (tv_state_nonneg p hr hii hmc hg hl k)
      (mc_state_nonneg p hmc hg k) 12)
    (stateLe_monthsEnd_yearEnd p hl k)

theorem stateLe_inYear_succ (p : Params) (hr : 0 ≤ p.annual_return)
    (hii : 0 ≤ p.initial_investment) (hmc : 0 ≤ p.monthly_contribution)
    (hg : -1 ≤ p.annual_increase_rate) (hl : ∀ l ∈ p.lump_sums, 0 ≤ l.2)
    (y m : ℕ) :
    stateLe (stateInYear p y m) (stateInYear p y (m + 1)) :=
  stateLe_iterate_succ p hr _ (tv_state_nonneg p hr hii hmc hg hl (y - 1))
    (mc_state_nonneg p hmc hg (y - 1)) m

theorem stateLe_boundary (p : Params) (hr : 0 ≤ p.annual_return)
    (hii : 0 ≤ p.initial_investment) (hmc : 0 ≤ p.monthly_contribution)
    (hg : -1 ≤ p.annual_increase_rate) (hl : ∀ l ∈ p.lump_sums, 0 ≤ l.2)
    (y : ℕ) (hy : 1 ≤ y) :
    stateLe (stateInYear p y 12) (stateInYear p (y + 1) 1) := by
  obtain ⟨k, rfl⟩ : ∃ k, y = k + 1 := ⟨y - 1, by omega⟩
  show stateLe ((monthStep p)^[12] (stateAfterYears p k))
    ((monthStep p)^[1] (stateAfterYears p (k + 1)))
  refine stateLe_trans (stateLe_monthsEnd_yearEnd p hl k) ?_
  show stateLe (stateAfterYears p (k + 1)) (monthStep p (stateAfterYears p (k + 1)))
  exact stateLe_monthStep p hr _ (tv_state_nonneg p hr hii hmc hg hl (k + 1))
    (mc_state_nonneg p hmc hg (k + 1))


theorem round2_zero : round2 0 = 0 := by
  norm_num [round2, roundHalfEven]

theorem state_zero (p : Params) (hii : p.initial_investment = 0)
    (hmc : p.monthly_contribution = 0) (hls : p.lump_sums = []) :
    ∀ k, stateAfterYears p k = ⟨0, 0, 0⟩ := by
  have hfix : monthStep p ⟨0, 0, 0⟩ = ⟨0, 0, 0⟩ := by
    show (⟨0 + 0, 0 * (1 + p.annual_return / 12) + 0, 0⟩ : EngineState) = _
    norm_num
  intro k
  induction k with
  | zero =>
    show initState p = _
    rw [initState, hii, hmc]
  | succ k ih =>
    rw [stateAfterYears_succ, ih, Function.iterate_fixed hfix]
    have hlumps : lumpsOfYear p (k + 1) = [] := by
      rw [lumpsOfYear, hls]
      rfl
    rw [hlumps]
    show growContrib p ⟨0, 0, 0⟩ = _
    show (⟨0, 0, 0 * (1 + p.annual_increase_rate)⟩ : EngineState) = _
    norm_num

/-- C2, counterexample: with `initial_investment = 0`,
`monthly_contribution = 0`, `years = 1` and no lump sums, the
`ROI (%)` computation of src/app.py line 305 hits the zero denominator
`total_contributions = 0` and silently produces NaN (`0/0` under
pandas/numpy semantics) — it does not fail, and no explicit
"undefined" result is surfaced to the caller, contradicting the claim
at this concrete input. -/
theorem C2_roi_counterexample :
    roiColumn ⟨0, 0, 1, 8 / 100, 0, 0, [], 1, 2024⟩ = [PFloat.nan] := by
  norm_num [roiColumn, calculate_investment_detailed, runYears, yearStep,
    runMonthList, monthStep, monthRow, yearlyRowOf, applyLumps, growContrib,
    lumpsOfYear, initState, List.range', round2, roundHalfEven, roiPercentCell]

/-- C2, amended: when ROI is computed against a zero denominator (every
row has `total_contributions = 0` exactly when the initial investment,
the monthly contribution and the lump sums are all zero), the
computation does not fail and surfaces no explicit "undefined" result:
it silently produces NaN (`0/0` under pandas/numpy semantics) in every
row of the `ROI (%)` column.  The CAGR computation at
`initial_investment = 0` (line 340) likewise divides without any
zero-denominator guard. -/
theorem C2_roi_amended (p : Params) (h1 : p.initial_investment = 0)
    (h2 : p.monthly_contribution = 0) (h3 : p.lump_sums = []) :
    roiColumn p = List.replicate p.years PFloat.nan := by
  unfold roiColumn
  rw [calc_eq]
  show (List.map (yearlyRowAt p) (List.range' 1 p.years)).map roiPercentCell = _
  rw [List.map_map]
  have hrow : ∀ y : ℕ, roiPercentCell (yearlyRowAt p y) = PFloat.nan := by
    intro y
    unfold yearlyRowAt
    rw [state_zero p h1 h2 h3]
    show roiPercentCell ⟨y, round2 0, round2 (0 - 0), round2 0⟩ = _
    rw [show (0 : ℚ) - 0 = 0 by ring, round2_zero]
    rfl
  have hc : roiPercentCell ∘ yearlyRowAt p = fun _ : ℕ => PFloat.nan := funext hrow
  rw [hc, List.map_const', List.length_range']

/-- Witness for C2's amended theorem at a concrete input. -/
theorem C2_roi_amended_witness :
    (⟨0, 0, 1, 8 / 100, 0, 0, [], 1, 2024⟩ : Params).initial_investment = 0 ∧
    roiColumn ⟨0, 0, 1, 8 / 100, 0, 0, [], 1, 2024⟩ = List.replicate 1 PFloat.nan :=
  ⟨rfl, C2_roi_amended ⟨0, 0, 1, 8 / 100, 0, 0, [], 1, 2024⟩ rfl rfl rfl⟩

/-- C8: the emitted yearly and monthly series are independent of
`annual_inflation_rate`: two runs differing only in that field produce
identical outputs in every field of every row (the "real" rate of
src/app.py lines 199-205 is computed but never applied). -/
theorem C8_inflation_independent (p : Params) (r : ℚ) :
    calculate_investment_detailed { p with annual_inflation_rate := r } =
      calculate_investment_detailed p := by
  have hM : monthlyRowAt { p with annual_inflation_rate := r } = monthlyRowAt p := by
    funext y m
    unfold monthlyRowAt stateInYear
    rw [stateAfterYears_inflation]
    rfl
  have hY : yearlyRowAt { p with annual_inflation_rate := r } = yearlyRowAt p := by
    funext y
    unfold yearlyRowAt
    rw [stateAfterYears_inflation]
  rw [calc_eq, calc_eq, hM, hY]

/-- C1, counterexample: with `initial_investment = 50`,
`monthly_contribution = 0`, `annual_return = 0.001`, the engine emits
monthly `Total Value` 50.00 for month 1 and 50.01 for month 2, but
compounding from the previously rounded cents (50.00, plus the rounded
zero contribution) and rounding at emission would give 50.00 again —
so the emitted series does not carry the rounded stored value forward,
contradicting the claim at this concrete input. -/
theorem C1_rounding_counterexample :
    ((calculate_investment_detailed ⟨50, 0, 1, 1 / 1000, 0, 0, [], 1, 2020⟩).2.map
        MonthlyRow.total_value).take 2 = [50, 5001 / 100] ∧
    round2 (50 * (1 + (1 / 1000 : ℚ) / 12) + round2 0) = 50 ∧
    (5001 / 100 : ℚ) ≠ 50 := by
  refine ⟨?_, ?_, by norm_num⟩
  · norm_num [calculate_investment_detailed, runYears, yearStep, runMonthList,
      monthStep, monthRow, yearlyRowOf, applyLumps, growContrib, lumpsOfYear,
      initState, List.range', round2, roundHalfEven]
  · norm_num [round2, roundHalfEven]

/-- C1, amended: all monetary figures in the emitted yearly and monthly
rows are rounded to 2 decimal places at emission time, but the engine
carries the full-precision accumulator forward: every emitted row is
the rounded image of the unrounded running state, and the state itself
advances by the unrounded recurrence (each month compounds from the
full-precision value, not from the previously rounded cents). -/
theorem C1_rounding_amended (p : Params) :
    ((calculate_investment_detailed p).1 =
      (List.range' 1 p.years).map (fun y => yearlyRowOf y (stateAfterYears p y))) ∧
    ((calculate_investment_detailed p).2 =
      (List.range' 1 p.years).flatMap (fun y =>
        (List.range' 1 12).map (fun m => monthRow p y m (stateInYear p y m)))) ∧
    (∀ y m : ℕ, stateInYear p y (m + 1) = monthStep p (stateInYear p y m)) ∧
    (∀ y m : ℕ,
      (monthRow p y m (stateInYear p y m)).total_value =
        round2 ((stateInYear p y m).total_value) ∧
      (monthRow p y m (stateInYear p y m)).total_contributions =
        round2 ((stateInYear p y m).total_contributions) ∧
      (monthRow p y m (stateInYear p y m)).investment_gain =
        round2 ((stateInYear p y m).total_value -
          (stateInYear p y m).total_contributions) ∧
      (monthRow p y m (stateInYear p y m)).monthly_contribution =
        round2 ((stateInYear p y m).monthly_contrib)) ∧
    (∀ y : ℕ,
      (yearlyRowOf y (stateAfterYears p y)).total_value =
        round2 ((stateAfterYears p y).total_value) ∧
      (yearlyRowOf y (stateAfterYears p y)).total_contributions =
        round2 ((stateAfterYears p y).total_contributions)) := by
  refine ⟨?_, ?_, ?_, ?_, ?_⟩
  · rw [calc_eq]
    rfl
  · rw [calc_eq]
    rfl
  · intro y m
    unfold stateInYear
    rw [Function.iterate_succ_apply']
  · intro y m
    exact ⟨rfl, rfl, rfl, rfl⟩
  · intro y
    exact ⟨rfl, rfl⟩

/-- C4: each month's update applies growth before the contribution, in
exactly the order `total_value = total_value * (1 + annual_return/12) +
contrib` then `total_contributions += contrib`; the contribution base
is multiplied by `(1 + annual_increase_rate)` once at the end of each
year; and Scenario B (`initial_investment = 1000`,
`monthly_contribution = 0`, `years = 1`, `annual_return = 0.12`)
produces the yearly row with total value 1126.83 (= 1000·1.01¹²
rounded) and total contributions 1000.00. -/
theorem C4_month_update_order (p : Params) :
    (∀ y i : ℕ,
      stateInYear p y (i + 1) =
        ⟨(stateInYear p y i).total_contributions + (stateInYear p y i).monthly_contrib,
         (stateInYear p y i).total_value * (1 + p.annual_return / 12) +
           (stateInYear p y i).monthly_contrib,
         (stateInYear p y i).monthly_contrib⟩) ∧
    (∀ k : ℕ, (stateAfterYears p (k + 1)).monthly_contrib =
      (stateAfterYears p k).monthly_contrib * (1 + p.annual_increase_rate)) ∧
    (calculate_investment_detailed ⟨1000, 0, 1, 12 / 100, 0, 0, [], 1, 2020⟩).1 =
      [⟨1, 1000, 12683 / 100, 112683 / 100⟩] := by
  refine ⟨?_, ?_, ?_⟩
  · intro y i
    unfold stateInYear
    rw [Function.iterate_succ_apply']
    rfl
  · intro k
    rw [mc_stateAfterYears, mc_stateAfterYears]
    ring
  · norm_num [calculate_investment_detailed, runYears, yearStep, runMonthList,
      monthStep, monthRow, yearlyRowOf, applyLumps, growContrib, lumpsOfYear,
      initState, List.range', round2, roundHalfEven]

/-- C5: the running `total_contributions` after `k` complete years
equals the initial investment plus all monthly contributions actually
applied (12 per year at that year's grown contribution base) plus all
lump sums with year in `[1, k]`; every yearly row (the final row
included) shows the rounded image of this exact accounting. -/
theorem C5_contribution_accounting (p : Params) :
    (∀ k : ℕ, (stateAfterYears p k).total_contributions = paidThrough p k) ∧
    ((calculate_investment_detailed p).1.map YearlyRow.total_contributions =
      (List.range' 1 p.years).map (fun k => round2 (paidThrough p k))) := by
  refine ⟨tc_stateAfterYears p, ?_⟩
  rw [calc_eq]
  show (List.map (yearlyRowAt p) (List.range' 1 p.years)).map
    YearlyRow.total_contributions = _
  rw [List.map_map]
  have hc : YearlyRow.total_contributions ∘ yearlyRowAt p =
      fun k => round2 (paidThrough p k) :=
    funext (fun k => yearlyRowAt_tc p k)
  rw [hc]

/-- C10: the emitted `Monthly Contribution` field equals the base
monthly contribution grown by `(1 + annual_increase_rate)^(y-1)`,
rounded to 2 decimal places at emission; it is constant across the 12
rows of each year and changes only at year boundaries. -/
theorem C10_monthly_contribution_field (p : Params) :
    (calculate_investment_detailed p).2.map MonthlyRow.monthly_contribution =
      (List.range' 1 p.years).flatMap
        (fun y => List.replicate 12 (round2 (contribBase p y))) := by
  rw [calc_eq]
  show ((List.range' 1 p.years).flatMap (fun y =>
    (List.range' 1 12).map (monthlyRowAt p y))).map MonthlyRow.monthly_contribution = _
  rw [List.map_flatMap]
  have hfun : (fun y => ((List.range' 1 12).map (monthlyRowAt p y)).map
      MonthlyRow.monthly_contribution) =
      fun y => List.replicate 12 (round2 (contribBase p y)) := by
    funext y
    rw [List.map_map]
    have hc : MonthlyRow.monthly_contribution ∘ monthlyRowAt p y =
        fun _ : ℕ => round2 (contribBase p y) :=
      funext (fun m => monthlyRowAt_contrib p y m)
    rw [hc, List.map_const', List.length_range']
  rw [hfun]

theorem flatMap_congr_left {α β : Type} {l : List α} {f g : α → List β}
    (h : ∀ a ∈ l, f a = g a) : l.flatMap f = l.flatMap g := by
  induction l with
  | nil => rfl
  | cons a tl ih =>
    rw [List.flatMap_cons, List.flatMap_cons, h a (List.mem_cons_self a tl),
      ih (fun b hb => h b (List.mem_cons_of_mem a hb))]

theorem lumpsOfYear_filter (p : Params) (y : ℕ) (h1 : 1 ≤ y) (h2 : y ≤ p.years) :
    lumpsOfYear
      { p with lump_sums :=
          p.lump_sums.filter (fun l => decide (1 ≤ l.1 ∧ l.1 ≤ (p.years : ℤ))) } y =
      lumpsOfYear p y := by
  unfold lumpsOfYear
  show ((p.lump_sums.filter
      (fun l => decide (1 ≤ l.1 ∧ l.1 ≤ (p.years : ℤ)))).filter
      (fun l => decide (l.1 = (y : ℤ)))).map Prod.snd = _
  rw [List.filter_filter]
  congr 1
  apply List.filter_congr
  intro l _
  by_cases hl : l.1 = (y : ℤ)
  · have hin : 1 ≤ l.1 ∧ l.1 ≤ (p.years : ℤ) := by rw [hl]; omega
    simp only [hl, hin]
    simp [h1, h2]
  · simp [hl]

theorem stateAfterYears_filter (p : Params) :
    ∀ k : ℕ, k ≤ p.years →
      stateAfterYears
        { p with lump_sums :=
            p.lump_sums.filter (fun l => decide (1 ≤ l.1 ∧ l.1 ≤ (p.years : ℤ))) } k =
        stateAfterYears p k := by
  intro k
  induction k with
  | zero => intro _; rfl
  | succ k ih =>
    intro hk
    rw [stateAfterYears_succ, stateAfterYears_succ, ih (by omega),
      lumpsOfYear_filter p (k + 1) (by omega) hk]
    rfl

/-- C3: lump sums are applied exactly once, at year end, and only when
their year is in range: (a) out-of-range lump sums never influence any
row (filtering them away leaves both tables unchanged); (b) the state
after year `k+1` is the state after that year's 12 monthly compounding
steps with the sum of that year's registered lump-sum amounts (all of
them, so same-year duplicates accumulate) added to both `total_value`
and `total_contributions`, followed by the contribution-base growth;
(c) every yearly row's `total_contributions` accounts for the lump sums
of years `≤ k`, while every monthly row of year `y` accounts only for
lump sums of years `< y` — so a year-`k` lump sum is reflected in the
year-`k` yearly row and all later rows but in no monthly row of
year `k`. -/
theorem C3_lump_sum_timing (p : Params) :
    (calculate_investment_detailed
        { p with lump_sums :=
            p.lump_sums.filter (fun l => decide (1 ≤ l.1 ∧ l.1 ≤ (p.years : ℤ))) } =
      calculate_investment_detailed p) ∧
    (∀ k : ℕ,
      stateAfterYears p (k + 1) =
        growContrib p
          ⟨(stateInYear p (k + 1) 12).total_contributions + (lumpsOfYear p (k + 1)).sum,
           (stateInYear p (k + 1) 12).total_value + (lumpsOfYear p (k + 1)).sum,
           (stateInYear p (k + 1) 12).monthly_contrib⟩) ∧
    ((calculate_investment_detailed p).1.map YearlyRow.total_contributions =
      (List.range' 1 p.years).map (fun k => round2 (paidThrough p k))) ∧
    ((calculate_investment_detailed p).2.map MonthlyRow.total_contributions =
      (List.range' 1 p.years).flatMap (fun y =>
        (List.range' 1 12).map (fun m =>
          round2 (paidThrough p (y - 1) + m * contribBase p y)))) := by
  refine ⟨?_, ?_, ?_, ?_⟩
  · rw [calc_eq, calc_eq]
    show (List.map _ (List.range' 1 p.years), (List.range' 1 p.years).flatMap _) = _
    refine Prod.ext ?_ ?_
    · show List.map _ (List.range' 1 p.years) = List.map _ (List.range' 1 p.years)
      apply List.map_congr_left
      intro y hy
      rw [List.mem_range'_1] at hy
      unfold yearlyRowAt
      rw [stateAfterYears_filter p y (by omega)]
    · show (List.range' 1 p.years).flatMap _ = (List.range' 1 p.years).flatMap _
      apply flatMap_congr_left
      intro y hy
      rw [List.mem_range'_1] at hy
      apply List.map_congr_left
      intro m _
      unfold monthlyRowAt stateInYear
      rw [stateAfterYears_filter p (y - 1) (by omega)]
      rfl
  · intro k
    rw [stateAfterYears_succ, applyLumps_eq]
    rfl
  · rw [calc_eq]
    show (List.map (yearlyRowAt p) (List.range' 1 p.years)).map
      YearlyRow.total_contributions = _
    rw [List.map_map]
    exact congrArg (fun f => List.map f (List.range' 1 p.years))
      (funext (fun k => yearlyRowAt_tc p k))
  · rw [calc_eq]
    show ((List.range' 1 p.years).flatMap (fun y =>
      (List.range' 1 12).map (monthlyRowAt p y))).map MonthlyRow.total_contributions = _
    rw [List.map_flatMap]
    apply flatMap_congr_left
    intro y _
    rw [List.map_map]
    exact congrArg (fun f => List.map f (List.range' 1 12))
      (funext (fun m => monthlyRowAt_tc p y m))

/-- C6: for any input with `years ≥ 1` the engine terminates with
exactly `years` yearly rows and `years * 12` monthly rows, in
increasing period order; the rate parameters are arbitrary rationals
(negative growth included) and no failure path exists. -/
theorem C6_lengths_order (p : Params) (_hy : 1 ≤ p.years) :
    (calculate_investment_detailed p).1.length = p.years ∧
    (calculate_investment_detailed p).2.length = p.years * 12 ∧
    (calculate_investment_detailed p).1.map YearlyRow.year = List.range' 1 p.years ∧
    (calculate_investment_detailed p).2.map (fun r => (r.year, r.month)) =
      (List.range' 1 p.years).flatMap
        (fun y => (List.range' 1 12).map (fun m => (y, m))) := by
  refine ⟨?_, ?_, ?_, ?_⟩
  · rw [calc_eq]
    show (List.map (yearlyRowAt p) (List.range' 1 p.years)).length = _
    rw [List.length_map, List.length_range']
  · rw [calc_eq]
    show ((List.range' 1 p.years).flatMap (fun y =>
      (List.range' 1 12).map (monthlyRowAt p y))).length = _
    rw [monthly_len, List.length_range']
  · rw [calc_eq]
    show (List.map (yearlyRowAt p) (List.range' 1 p.years)).map YearlyRow.year = _
    rw [List.map_map]
    have hc : YearlyRow.year ∘ yearlyRowAt p = fun y => y := rfl
    rw [hc, List.map_id']
  · rw [calc_eq]
    show ((List.range' 1 p.years).flatMap (fun y =>
      (List.range' 1 12).map (monthlyRowAt p y))).map (fun r => (r.year, r.month)) = _
    rw [List.map_flatMap]
    apply flatMap_congr_left
    intro y _
    rw [List.map_map]
    rfl

/-- Witness for C6 at a concrete input (with a negative return rate, to
exercise the no-failure-path part). -/
theorem C6_lengths_order_witness :
    1 ≤ (⟨100, 50, 2, -5 / 100, 3 / 100, 2 / 100, [(1, 10)], 3, 2024⟩ : Params).years ∧
    (calculate_investment_detailed
      ⟨100, 50, 2, -5 / 100, 3 / 100, 2 / 100, [(1, 10)], 3, 2024⟩).1.length = 2 :=
  ⟨by decide,
   (C6_lengths_order ⟨100, 50, 2, -5 / 100, 3 / 100, 2 / 100, [(1, 10)], 3, 2024⟩
     (by decide)).1⟩

/-- C9: the calendar anchor `(start_month, start_year)` affects only
the label fields: two runs differing only in the anchor have identical
yearly tables and identical monthly rows once the labels are blanked;
and the labels of each monthly row equal the anchor offset by
`(y-1)*12 + (m-1)` months, wrapping the month over 1..12 (floor-mod
12) and carrying the year (floor-division by 12). -/
theorem C9_anchor_labels_only (p : Params) (sm sy : ℤ) :
    ((calculate_investment_detailed { p with start_month := sm, start_year := sy }).1 =
      (calculate_investment_detailed p).1) ∧
    ((calculate_investment_detailed { p with start_month := sm, start_year := sy }).2.map
        stripAnchor =
      (calculate_investment_detailed p).2.map stripAnchor) ∧
    ((calculate_investment_detailed p).2.map
        (fun r => (r.calendar_month, r.calendar_year, r.month_name)) =
      (calculate_investment_detailed p).2.map
        (fun r =>
          ((p.start_month - 1 + (((r.year : ℤ) - 1) * 12 + ((r.month : ℤ) - 1))) % 12 + 1,
           p.start_year +
             (p.start_month - 1 + (((r.year : ℤ) - 1) * 12 + ((r.month : ℤ) - 1))) / 12,
           pyMonthName
             ((p.start_month - 1 +
               (((r.year : ℤ) - 1) * 12 + ((r.month : ℤ) - 1))) % 12 + 1)))) := by
  refine ⟨?_, ?_, ?_⟩
  · rw [calc_eq, calc_eq]
    show List.map (yearlyRowAt { p with start_month := sm, start_year := sy })
      (List.range' 1 p.years) = _
    have hY : yearlyRowAt { p with start_month := sm, start_year := sy } =
        yearlyRowAt p := by
      funext y
      unfold yearlyRowAt
      rw [stateAfterYears_anchor]
    rw [hY]
  · rw [calc_eq, calc_eq]
    show ((List.range' 1 p.years).flatMap (fun y => (List.range' 1 12).map
      (monthlyRowAt { p with start_month := sm, start_year := sy } y))).map
        stripAnchor = _
    rw [List.map_flatMap, List.map_flatMap]
    apply flatMap_congr_left
    intro y _
    rw [List.map_map, List.map_map]
    apply List.map_congr_left
    intro m _
    show stripAnchor (monthlyRowAt { p with start_month := sm, start_year := sy } y m) =
      stripAnchor (monthlyRowAt p y m)
    unfold monthlyRowAt stateInYear
    rw [stateAfterYears_anchor]
    rfl
  · rw [calc_eq]
    show ((List.range' 1 p.years).flatMap (fun y =>
      (List.range' 1 12).map (monthlyRowAt p y))).map
        (fun r => (r.calendar_month, r.calendar_year, r.month_name)) = _
    apply List.map_congr_left
    intro r hr
    rcases List.mem_flatMap.mp hr with ⟨y, _, hm⟩
    rcases List.mem_map.mp hm with ⟨m, _, rfl⟩
    have hcm : (p.start_month + (m : ℤ) - 2) % 12 + 1 =
        (p.start_month - 1 + (((y : ℤ) - 1) * 12 + ((m : ℤ) - 1))) % 12 + 1 := by
      omega
    have hcy : p.start_year + ((y : ℤ) - 1) +
        (p.start_month + (m : ℤ) - 2) / 12 =
        p.start_year +
          (p.start_month - 1 + (((y : ℤ) - 1) * 12 + ((m : ℤ) - 1))) / 12 := by
      omega
    show ((p.start_month + (m : ℤ) - 2) % 12 + 1,
      p.start_year + ((y : ℤ) - 1) + (p.start_month + (m : ℤ) - 2) / 12,
      pyMonthName ((p.start_month + (m : ℤ) - 2) % 12 + 1)) = _
    simp only [Prod.mk.injEq]
    exact ⟨hcm, hcy, congrArg pyMonthName hcm⟩

/-- C7, counterexample: the input `initial_investment = 0`,
`monthly_contribution = 100`, `years = 2`, `annual_return = 0`,
`annual_increase_rate = -2`, no lump sums, satisfies every hypothesis
the claim lists (non-negative return, contribution, initial investment
and lump-sum amounts), yet the yearly `Total Contributions` column is
[1200, 0] — strictly decreasing — because line 244 of src/app.py flips
the contribution base to −100 at the end of year 1.  So the claim as
stated, with the increase rate unrestricted, is false. -/
theorem C7_monotonicity_counterexample :
    (0 : ℚ) ≤ (⟨0, 100, 2, 0, -2, 0, [], 1, 2024⟩ : Params).annual_return ∧
    (0 : ℚ) ≤ (⟨0, 100, 2, 0, -2, 0, [], 1, 2024⟩ : Params).initial_investment ∧
    (0 : ℚ) ≤ (⟨0, 100, 2, 0, -2, 0, [], 1, 2024⟩ : Params).monthly_contribution ∧
    (⟨0, 100, 2, 0, -2, 0, [], 1, 2024⟩ : Params).lump_sums = [] ∧
    ((calculate_investment_detailed ⟨0, 100, 2, 0, -2, 0, [], 1, 2024⟩).1.map
        YearlyRow.total_contributions = [1200, 0]) ∧
    ¬ List.Chain' (fun a b : YearlyRow =>
        a.total_contributions ≤ b.total_contributions ∧ a.total_value ≤ b.total_value)
      (calculate_investment_detailed ⟨0, 100, 2, 0, -2, 0, [], 1, 2024⟩).1 := by
  have hrows : (calculate_investment_detailed ⟨0, 100, 2, 0, -2, 0, [], 1, 2024⟩).1 =
      [⟨1, 1200, 0, 1200⟩, ⟨2, 0, 0, 0⟩] := by
    norm_num [calculate_investment_detailed, runYears, yearStep, runMonthList,
      monthStep, monthRow, yearlyRowOf, applyLumps, growContrib, lumpsOfYear,
      initState, List.range', round2, roundHalfEven]
  refine ⟨by norm_num, by norm_num, by norm_num, rfl, ?_, ?_⟩
  · rw [hrows]
    norm_num
  · rw [hrows]
    intro h
    rw [List.chain'_cons] at h
    have h1 := h.1.1
    norm_num at h1

/-- C7, amended: with non-negative annual return, monthly
contribution, initial investment and lump sums, and an annual increase
rate of at least −1 (so the contribution base never flips sign; the
validated input range of the spec, rates in [0, 10]%, lies well inside
this), `total_contributions` and `total_value` are non-decreasing
across consecutive yearly rows and across consecutive monthly rows. -/
theorem C7_monotonicity (p : Params) (hr : 0 ≤ p.annual_return)
    (hii : 0 ≤ p.initial_investment) (hmc : 0 ≤ p.monthly_contribution)
    (hg : -1 ≤ p.annual_increase_rate) (hl : ∀ l ∈ p.lump_sums, 0 ≤ l.2) :
    List.Chain' (fun a b : YearlyRow =>
      a.total_contributions ≤ b.total_contributions ∧ a.total_value ≤ b.total_value)
      (calculate_investment_detailed p).1 ∧
    List.Chain' (fun a b : MonthlyRow =>
      a.total_contributions ≤ b.total_contributions ∧ a.total_value ≤ b.total_value)
      (calculate_investment_detailed p).2 := by
  constructor
  · rw [calc_eq]
    show List.Chain' _ (List.map (yearlyRowAt p) (List.range' 1 p.years))
    apply chain_map_range
    intro k
    have hs := stateLe_years p hr hii hmc hg hl k
    exact ⟨round2_mono hs.1, round2_mono hs.2⟩
  · rw [calc_eq]
    show List.Chain' _ ((List.range' 1 p.years).flatMap (fun y =>
      (List.range' 1 12).map (monthlyRowAt p y)))
    apply chain_flatMap _ _ ?_ ?_ p.years 1 ?_
    · intro i
      rw [show List.range' 1 12 = [1, 2, 3, 4, 5, 6, 7, 8, 9, 10, 11, 12] from rfl]
      simp
    · intro i
      apply chain_map_range
      intro m
      have hs := stateLe_inYear_succ p hr hii hmc hg hl i m
      exact ⟨round2_mono hs.1, round2_mono hs.2⟩
    · intro i hi x hx z hz
      rw [List.getLast?_map, show (List.range' 1 12).getLast? = some 12 from rfl] at hx
      rw [List.head?_map, show (List.range' 1 12).head? = some 1 from rfl] at hz
      simp only [Option.map_some', Option.mem_def, Option.some.injEq] at hx hz
      rw [← hx, ← hz]
      have hs := stateLe_boundary p hr hii hmc hg hl i hi
      exact ⟨round2_mono hs.1, round2_mono hs.2⟩

/-- Witness for C7 at a concrete input. -/
theorem C7_monotonicity_witness :
    (0 : ℚ) ≤ (⟨50, 50, 2, 1, 0, 0, [(1, 100)], 1, 2024⟩ : Params).annual_return ∧
    List.Chain' (fun a b : YearlyRow =>
      a.total_contributions ≤ b.total_contributions ∧ a.total_value ≤ b.total_value)
      (calculate_investment_detailed ⟨50, 50, 2, 1, 0, 0, [(1, 100)], 1, 2024⟩).1 :=
  ⟨by decide,
   (C7_monotonicity ⟨50, 50, 2, 1, 0, 0, [(1, 100)], 1, 2024⟩
     (by decide) (by decide) (by decide) (by decide) (by decide)).1⟩
